import Mathlib

/-!
Verification development for the newsaggregator repository (Go).

The embedding below translates the repository's data model and the
operations the claims concern into Lean:

* `GoTime`, `goTimeParse` — a model of the slice of Go's `time.Parse`
  exercised by `parsePubDate` (src/internal/adapter/parser/xmlparser.go):
  the five reference layouts `time.RFC1123Z`, `time.RFC1123`,
  `time.RFC822Z`, `time.RFC822` and `"Mon, 2 Jan 2006 15:04:05 -0700"`.
  Following Go's documented behaviour, a zone given as an abbreviation
  that is not `UTC` (and not `GMT` with an explicit hour offset) yields a
  fabricated location with zero offset; the process-local zone database is
  assumed not to define the abbreviation, as in the repository's CI.
* `XMLParser.Parse` — the parser loop over an already-decoded document
  (`encoding/xml` decoding itself is external; its outcome is the input).
* `PostgresNewsDB.SaveNews` / `GetNews` — the store, modelled as the list
  of rows of the `news` table (`link TEXT UNIQUE NOT NULL`, see
  internal/migrations); `ON CONFLICT (link) DO NOTHING` becomes
  `insertRow`, and `ORDER BY pub_date DESC LIMIT n` becomes an insertion
  sort by descending publish instant followed by `take`.
* `FeedProcessingUseCase.ProcessFeed` — the fetch→parse→save pipeline,
  instrumented to also return the list of stages actually invoked.
* `Worker.processAllFeeds` — one scheduler cycle; the concurrent fan-out
  is linearised as a fold (the success/error counters are accumulated
  atomically in the source so their totals are order-independent).
* `Handler.getNews` — the GET /api/news read boundary with its
  `strconv.Atoi` limit handling.
-/

set_option linter.unnecessarySeqFocus false

namespace News

/-! ## Go time model -/

/-- Model of a Go `time.Time` at second precision as produced by
`time.Parse`: broken-down civil fields plus the parsed zone offset in
seconds east of UTC. -/
structure GoTime where
  year : Int
  month : Nat
  day : Nat
  hour : Nat
  minute : Nat
  second : Nat
  offsetSec : Int
  deriving Repr, DecidableEq

def isLeapYear (y : Int) : Bool :=
  y % 4 = 0 && (y % 100 ≠ 0 || y % 400 = 0)

def daysInMonth (y : Int) (m : Nat) : Nat :=
  if m = 2 then (if isLeapYear y then 29 else 28)
  else if m = 4 || m = 6 || m = 9 || m = 11 then 30
  else 31

/-- Days from 1970-01-01 to year/month/day (proleptic Gregorian),
the standard civil-from-days algorithm. -/
def daysFromCivil (y : Int) (m d : Nat) : Int :=
  let yy : Int := if m ≤ 2 then y - 1 else y
  let era : Int := (if 0 ≤ yy then yy else yy - 399) / 400
  let yoe : Int := yy - era * 400
  let mp : Int := if 2 < m then (m : Int) - 3 else (m : Int) + 9
  let doy : Int := (153 * mp + 2) / 5 + (d : Int) - 1
  let doe : Int := yoe * 365 + yoe / 4 - yoe / 100 + doy
  era * 146097 + doe - 719468

/-- Unix seconds of the instant a `GoTime` denotes. -/
def toUnix (t : GoTime) : Int :=
  daysFromCivil t.year t.month t.day * 86400
    + (t.hour : Int) * 3600 + (t.minute : Int) * 60 + (t.second : Int)
    - t.offsetSec

/-! ## Go `time.Parse` for the five pubDate layouts -/

def digitVal (c : Char) : Nat := c.toNat - 48

/-- Go's `getnum`: one or two digits, exactly two when `fixed`. -/
def getnum (fixed : Bool) : List Char → Option (Nat × List Char)
  | [] => none
  | c1 :: rest1 =>
    if c1.isDigit then
      match rest1 with
      | c2 :: rest2 =>
        if c2.isDigit then some (digitVal c1 * 10 + digitVal c2, rest2)
        else if fixed then none
        else some (digitVal c1, rest1)
      | [] => if fixed then none else some (digitVal c1, [])
    else none

/-- Go's four-digit year read (`stdLongYear`). -/
def getnum4 : List Char → Option (Nat × List Char)
  | c1 :: c2 :: c3 :: c4 :: rest =>
    if c1.isDigit && c2.isDigit && c3.isDigit && c4.isDigit then
      some (digitVal c1 * 1000 + digitVal c2 * 100 + digitVal c3 * 10 + digitVal c4, rest)
    else none
  | _ => none

/-- Go's `match` on one byte: equal, or both the same ASCII letter up to
case. -/
def charMatch (v l : Char) : Bool :=
  v == l ||
    (let a := v.toNat ||| 32
     let b := l.toNat ||| 32
     a == b && 97 ≤ a && a ≤ 122)

/-- If the table word `w` is a case-insensitive prefix of `val`, the rest
of `val`. -/
def dropWord : List Char → List Char → Option (List Char)
  | [], val => some val
  | _ :: _, [] => none
  | w :: ws, v :: vs => if charMatch v w then dropWord ws vs else none

/-- Go's `lookup`: index of the first table word that prefixes `val`, and
the rest of `val`. -/
def lookupTab : List (List Char) → Nat → List Char → Option (Nat × List Char)
  | [], _, _ => none
  | w :: ws, i, val =>
    match dropWord w val with
    | some rest => some (i, rest)
    | none => lookupTab ws (i + 1) val

def shortDayNames : List (List Char) :=
  ["Sun".data, "Mon".data, "Tue".data, "Wed".data, "Thu".data, "Fri".data, "Sat".data]

def shortMonthNames : List (List Char) :=
  ["Jan".data, "Feb".data, "Mar".data, "Apr".data, "May".data, "Jun".data,
   "Jul".data, "Aug".data, "Sep".data, "Oct".data, "Nov".data, "Dec".data]

def isUpperAZ (c : Char) : Bool := 65 ≤ c.toNat && c.toNat ≤ 90

def countUpper : List Char → Nat → Nat
  | [], _ => 0
  | c :: rest, bound =>
    if bound = 0 then 0
    else if isUpperAZ c then countUpper rest (bound - 1) + 1 else 0

/-- Go's `leadingInt` as far as the zone parser needs it: digits read, and
how many characters they took. -/
def leadingDigits : List Char → Nat × Nat
  | [] => (0, 0)
  | c :: rest =>
    if c.isDigit then
      let (x, n) := leadingDigits rest
      (digitVal c * 10 ^ n + x, n + 1)
  else (0, 0)

/-- Go's `parseSignedOffset`: length of a sign followed by digits worth at
most 24 hours, 0 when there is none. -/
def signedOffsetLen (val : List Char) : Nat :=
  match val with
  | c :: rest =>
    if c = '+' || c = '-' then
      let (x, n) := leadingDigits rest
      if n = 0 || 24 < x then 0 else n + 1
    else 0
  | [] => 0

/-- Go's `parseGMT`: "GMT" optionally followed by a signed hour count. -/
def parseGMTLen (val : List Char) : Nat :=
  3 + signedOffsetLen (val.drop 3)

/-- Go's `parseTimeZone`: how many characters of `val` look like a zone
abbreviation, if any. -/
def timeZoneLen (val : List Char) : Option Nat :=
  if val.length < 3 then none
  else if val.take 4 = "ChST".data || val.take 4 = "MeST".data then some 4
  else if val.take 3 = "GMT".data then some (parseGMTLen val)
  else if signedOffsetLen val ≠ 0 then some (signedOffsetLen val)
  else
    match countUpper val 6 with
    | 3 => some 3
    | 4 =>
      if (val.drop 3).take 1 = ['T'] || val.take 4 = "WITA".data then some 4 else none
    | 5 => if (val.drop 4).take 1 = ['T'] then some 5 else none
    | _ => none

/-- Signed decimal integer, used for the hour count of a `GMT±h` zone
name (Go's internal `atoi`). -/
def atoiChars (cs : List Char) : Option Int :=
  let (sign, ds) : Int × List Char :=
    match cs with
    | '+' :: rest => (1, rest)
    | '-' :: rest => (-1, rest)
    | _ => (1, cs)
  if ds = [] then none
  else if ds.all Char.isDigit then
    some (sign * (ds.foldl (fun acc c => acc * 10 + digitVal c) 0 : Nat))
  else none

/-- Offset Go assigns to a parsed zone name: `GMT±h` carries its hour
count, every other abbreviation fabricates a zero-offset location
(the local zone database is assumed not to define it). -/
def zoneOffsetOf (name : List Char) : Int :=
  if name.take 3 = "GMT".data && 3 < name.length then
    match atoiChars (name.drop 3) with
    | some h => h * 3600
    | none => 0
  else 0

/-- One pass of Go's `Parse` over a layout: the layout chunks are exactly
those occurring in the five pubDate formats (`Mon`, `Jan`, `2006`, `06`,
`02`, `2`, `15`, `04`, `05`, `-0700`, `MST`, literals). Hour, minute and
second are range-checked as in Go; leftover input is an error. -/
def parseLayout : List Char → List Char → GoTime → Option GoTime
  | [], value, t => if value = [] then some t else none
  | 'M' :: 'o' :: 'n' :: lay, value, t =>
    match lookupTab shortDayNames 0 value with
    | some (_, rest) => parseLayout lay rest t
    | none => none
  | 'M' :: 'S' :: 'T' :: lay, value, t =>
    if value.take 3 = "UTC".data then
      parseLayout lay (value.drop 3) { t with offsetSec := 0 }
    else
      match timeZoneLen value with
      | some n => parseLayout lay (value.drop n) { t with offsetSec := zoneOffsetOf (value.take n) }
      | none => none
  | 'J' :: 'a' :: 'n' :: lay, value, t =>
    match lookupTab shortMonthNames 0 value with
    | some (m, rest) => parseLayout lay rest { t with month := m + 1 }
    | none => none
  | '2' :: '0' :: '0' :: '6' :: lay, value, t =>
    match getnum4 value with
    | some (y, rest) => parseLayout lay rest { t with year := (y : Int) }
    | none => none
  | '2' :: lay, value, t =>
    match getnum false value with
    | some (d, rest) => parseLayout lay rest { t with day := d }
    | none => none
  | '0' :: '2' :: lay, value, t =>
    match getnum true value with
    | some (d, rest) => parseLayout lay rest { t with day := d }
    | none => none
  | '0' :: '6' :: lay, value, t =>
    match getnum true value with
    | some (y, rest) =>
      parseLayout lay rest { t with year := if 69 ≤ y then 1900 + (y : Int) else 2000 + (y : Int) }
    | none => none
  | '1' :: '5' :: lay, value, t =>
    match getnum false value with
    | some (h, rest) => if h < 24 then parseLayout lay rest { t with hour := h } else none
    | none => none
  | '0' :: '4' :: lay, value, t =>
    match getnum true value with
    | some (m, rest) => if m < 60 then parseLayout lay rest { t with minute := m } else none
    | none => none
  | '0' :: '5' :: lay, value, t =>
    match getnum true value with
    | some (s, rest) => if s < 60 then parseLayout lay rest { t with second := s } else none
    | none => none
  | '-' :: '0' :: '7' :: '0' :: '0' :: lay, value, t =>
    match value with
    | sign :: vrest =>
      if sign = '+' || sign = '-' then
        match getnum true vrest with
        | some (hh, r2) =>
          match getnum true r2 with
          | some (mm, r3) =>
            let off : Int := (hh * 3600 + mm * 60 : Nat)
            parseLayout lay r3 { t with offsetSec := if sign = '-' then -off else off }
          | none => none
        | none => none
      else none
    | [] => none
  | c :: lay, value, t =>
    match value with
    | v :: vrest => if v = c then parseLayout lay vrest t else none
    | [] => none

/-- Go `time.Parse` on one of the pubDate layouts: run the layout, then
Go's trailing day-of-month range check. -/
def goTimeParse (layout value : String) : Option GoTime :=
  match parseLayout layout.data value.data ⟨0, 1, 1, 0, 0, 0, 0⟩ with
  | some t => if 1 ≤ t.day && t.day ≤ daysInMonth t.year t.month then some t else none
  | none => none

def goIsSpace (c : Char) : Bool :=
  c = ' ' || c = '\t' || c = '\n' || c = '\r' || c.toNat = 11 || c.toNat = 12

/-- `strings.TrimSpace` (the feeds' dates are ASCII, so the ASCII space
classes suffice). -/
def trimSpace (s : String) : String :=
  ⟨((s.data.dropWhile goIsSpace).reverse.dropWhile goIsSpace).reverse⟩

/-! ## Domain model (internal/domain/feed.go) -/

/-- `domain.Item`. -/
structure Item where
  title : String
  link : String
  description : String
  pubDate : GoTime
  deriving Repr, DecidableEq

/-- `domain.Feed`. -/
structure Feed where
  title : String
  link : String
  description : String
  items : List Item
  deriving Repr, DecidableEq

/-! ## XML parser (internal/adapter/parser/xmlparser.go) -/

/-- `itemXML`: one `<item>` as decoded by `encoding/xml`. -/
structure ItemXML where
  title : String
  link : String
  description : String
  pubDate : String
  deriving Repr, DecidableEq

/-- `channelXML`. -/
structure ChannelXML where
  title : String
  link : String
  description : String
  items : List ItemXML
  deriving Repr, DecidableEq

/-- `rssXML`. -/
structure RssXML where
  channel : ChannelXML
  deriving Repr, DecidableEq

/-- The format list of `parsePubDate`, in source order. -/
def pubDateFormats : List String :=
  ["Mon, 02 Jan 2006 15:04:05 -0700",
   "Mon, 02 Jan 2006 15:04:05 MST",
   "02 Jan 06 15:04 -0700",
   "02 Jan 06 15:04 MST",
   "Mon, 2 Jan 2006 15:04:05 -0700"]

/-- The `for _, format := range formats` loop of `parsePubDate`. -/
def parsePubDateLoop : List String → String → Option GoTime
  | [], _ => none
  | f :: rest, s =>
    match goTimeParse f s with
    | some t => some t
    | none => parsePubDateLoop rest s

/-- `parsePubDate`: try each format on the trimmed string, first success
wins; `none` models the "could not parse date in any known format"
error. -/
def parsePubDate (dateStr : String) : Option GoTime :=
  parsePubDateLoop pubDateFormats (trimSpace dateStr)

/-- Errors of `XMLParser.Parse`: the context's error returned by the
entry guard, or the wrapped `failed to decode XML` error. -/
inductive ParseError where
  | ctxCanceled : ParseError
  | decodeFailed : String → ParseError
  deriving Repr, DecidableEq

/-- One iteration of the item loop of `Parse`: the item built from a
DTO when its pubDate parses, nothing when it does not (the `continue`
branch). -/
def itemOfDTO (dto : ItemXML) : Option Item :=
  (parsePubDate dto.pubDate).map fun d => ⟨dto.title, dto.link, dto.description, d⟩

/-- The item loop of `Parse`: items whose pubDate fails to parse are
skipped, the rest are copied verbatim. -/
def parseFeed (rss : RssXML) : Feed :=
  ⟨rss.channel.title, rss.channel.link, rss.channel.description,
    rss.channel.items.filterMap itemOfDTO⟩

/-- `XMLParser.Parse`: the `ctx.Err()` entry guard, then the
`encoding/xml` decode (external; its outcome is the `decoded` input),
then the item loop. -/
def XMLParser.Parse (ctxCancelled : Bool) (decoded : Except String RssXML) :
    Except ParseError Feed :=
  if ctxCancelled then .error .ctxCanceled
  else
    match decoded with
    | .error e => .error (.decodeFailed e)
    | .ok rss => .ok (parseFeed rss)

/-! ## Postgres store (storage/postgres.go, migrations) -/

/-- One row of the `news` table: `title, content, pub_date, link` with
`link TEXT UNIQUE NOT NULL`. -/
structure NewsRow where
  title : String
  content : String
  pubDate : GoTime
  link : String
  deriving Repr, DecidableEq

/-- The row a queued batch insert builds from an item
(`item.Title, item.Description, item.PubDate, item.Link`). -/
def rowOf (it : Item) : NewsRow :=
  ⟨it.title, it.description, it.pubDate, it.link⟩

/-- One `INSERT ... ON CONFLICT (link) DO NOTHING`: appended unless a row
with the same link exists. -/
def insertRow (rows : List NewsRow) (r : NewsRow) : List NewsRow :=
  if rows.any fun x => x.link == r.link then rows else rows ++ [r]

/-- The queued batch executed in order inside one transaction. -/
def saveBatch (rows : List NewsRow) (items : List Item) : List NewsRow :=
  items.foldl (fun acc it => insertRow acc (rowOf it)) rows

/-- `PostgresNewsDB.SaveNews`: an empty batch returns 0 before any
transaction; otherwise `dbErr` models a `Begin`/`SendBatch`/`Commit`
failure of the external pool (rolled back, store unchanged), and on
success the store receives the batch and the returned count is
`len(feed.Items)`. -/
def PostgresNewsDB.SaveNews (dbErr : Option String) (rows : List NewsRow)
    (feed : Feed) : Except String (List NewsRow × Nat) :=
  if feed.items.length = 0 then .ok (rows, 0)
  else
    match dbErr with
    | some e => .error e
    | none => .ok (saveBatch rows feed.items, feed.items.length)

/-- The `ORDER BY pub_date DESC` relation. -/
def newsOrd (a b : NewsRow) : Prop := toUnix b.pubDate ≤ toUnix a.pubDate

instance : DecidableRel newsOrd := fun a b =>
  inferInstanceAs (Decidable (toUnix b.pubDate ≤ toUnix a.pubDate))

instance : IsTotal NewsRow newsOrd :=
  ⟨fun a b => le_total (toUnix b.pubDate) (toUnix a.pubDate)⟩

instance : IsTrans NewsRow newsOrd :=
  ⟨fun _ _ _ h1 h2 => le_trans h2 h1⟩

/-- `PostgresNewsDB.GetNews`: substitute the configured default when the
requested limit is non-positive, then
`SELECT ... ORDER BY pub_date DESC LIMIT $1`. -/
def PostgresNewsDB.GetNews (defaultNewsLimit : Int) (rows : List NewsRow)
    (n : Int) : List NewsRow :=
  let limit := if n ≤ 0 then defaultNewsLimit else n
  (List.insertionSort newsOrd rows).take limit.toNat

/-- `NewsGetterUseCase.GetNews`: delegates to the storage unchanged. -/
def NewsGetterUseCase.GetNews (defaultNewsLimit : Int) (rows : List NewsRow)
    (n : Int) : List NewsRow :=
  PostgresNewsDB.GetNews defaultNewsLimit rows n

/-! ## Feed processing use case (internal/usecase) -/

/-- `extractFeedName`: the configured display name, else the URL's host
with a `www.` stripped, else "Unknown". -/
def extractFeedName (feedNames : List (String × String)) (url : String) : String :=
  match feedNames.find? fun kv => kv.1 == url with
  | some kv => kv.2
  | none =>
    match url.splitOn "/" with
    | _ :: _ :: dom :: _ =>
      if dom.startsWith "www." then dom.drop 4 else dom
    | _ => "Unknown"

/-- The three pipeline stages of `ProcessFeed`. -/
inductive Stage where
  | fetch : Stage
  | parse : Stage
  | save : Stage
  deriving Repr, DecidableEq

/-- The wrapped error `"<stage> failed for <feedName>: %w"`: the failing
stage, the feed's display name, and the original cause verbatim. -/
structure ProcFail where
  stage : Stage
  feed : String
  cause : String
  deriving Repr, DecidableEq

/-- `FeedProcessingUseCase.ProcessFeed` over its collaborators' outcomes
(fetcher stream contents as a `String`), instrumented with the list of
stages actually invoked, in order. -/
def FeedProcessingUseCase.ProcessFeed (feedNames : List (String × String))
    (url : String) (fetchRes : Except String String)
    (parseRes : String → Except String Feed)
    (saveRes : Feed → Except String Nat) :
    Except ProcFail Unit × List Stage :=
  let feedName := extractFeedName feedNames url
  match fetchRes with
  | .error e => (.error ⟨.fetch, feedName, e⟩, [.fetch])
  | .ok stream =>
    match parseRes stream with
    | .error e => (.error ⟨.parse, feedName, e⟩, [.fetch, .parse])
    | .ok feed =>
      match saveRes feed with
      | .error e => (.error ⟨.save, feedName, e⟩, [.fetch, .parse, .save])
      | .ok _ => (.ok (), [.fetch, .parse, .save])

/-! ## Worker (internal/worker/worker.go) -/

/-- One unit of work of `processAllFeeds` acting on the cycle
accumulator (successCount, errorCount, urls for which `ProcessFeed` was
invoked): a unit whose context is already cancelled, or whose processor
is nil, returns without invoking `ProcessFeed`; otherwise the outcome of
`ProcessFeed` on the url (`ok u`) bumps one atomic counter. -/
def Worker.runUnit (cancelled : Bool) (procPresent : Bool) (ok : String → Bool)
    (u : String) (acc : Nat × Nat × List String) : Nat × Nat × List String :=
  if cancelled then acc
  else if procPresent = false then acc
  else if ok u then (acc.1 + 1, acc.2.1, acc.2.2 ++ [u])
  else (acc.1, acc.2.1 + 1, acc.2.2 ++ [u])

/-- `Worker.processAllFeeds`: the per-cycle fan-out over the configured
urls, linearised as a fold (the atomic counters' totals and the set of
invoked units are order-independent). -/
def Worker.processAllFeeds (cancelled : Bool) (procPresent : Bool)
    (ok : String → Bool) (urls : List String) : Nat × Nat × List String :=
  urls.foldl (fun acc u => Worker.runUnit cancelled procPresent ok u acc) (0, 0, [])

/-- The store at the end of a cycle: each invoked unit's `ProcessFeed`
applies its store effect (`SaveNews` reached through the pipeline);
units never invoked write nothing. -/
def Worker.cycleStore (cancelled : Bool) (procPresent : Bool)
    (ok : String → Bool) (save : List NewsRow → String → List NewsRow)
    (urls : List String) (s0 : List NewsRow) : List NewsRow :=
  (Worker.processAllFeeds cancelled procPresent ok urls).2.2.foldl save s0

/-! ## HTTP read boundary (transport/http handler) -/

/-- `strconv.Atoi`: optional sign then decimal digits, nothing else
(overflow of the machine int is out of the model's range). -/
def goAtoi (s : String) : Option Int := atoiChars s.data

/-- `r.URL.Query().Get(key)`: the first value for the key, `""` when the
key is absent. -/
def queryGet (q : List (String × String)) (key : String) : String :=
  match q.find? fun kv => kv.1 == key with
  | some kv => kv.2
  | none => ""

/-- `Handler.getNews` on GET /api/news: (status code, the limit the news
getter was invoked with, if it was). Non-GET is 405; a non-empty limit
value that fails `Atoi` or is ≤ 0 is 400 without invoking the getter;
otherwise the getter runs with the parsed limit or the hard-coded 10. -/
def Handler.getNews (method : String) (q : List (String × String))
    (getRes : Int → Except String (List Item)) : Nat × Option Int :=
  if method ≠ "GET" then (405, none)
  else
    let limitStr := queryGet q "limit"
    let runWith : Int → Nat × Option Int := fun l =>
      match getRes l with
      | .ok _ => (200, some l)
      | .error _ => (500, some l)
    if limitStr ≠ "" then
      match goAtoi limitStr with
      | none => (400, none)
      | some l => if l ≤ 0 then (400, none) else runWith l
    else runWith 10

/-! ## Concrete fixtures used by closed theorems -/

/-- The links present in a store. -/
def links (rows : List NewsRow) : List String := rows.map NewsRow.link

/-- A well-formed item as in the repository's parser test. -/
def wItem : Item :=
  ⟨"Item 1", "https://example.com/item1", "Item 1 Description", ⟨2006, 1, 2, 15, 4, 5, 0⟩⟩

/-- A one-item feed built around `wItem`. -/
def wFeed : Feed := ⟨"Test Feed", "https://example.com", "Test Description", [wItem]⟩

/-- A stored row whose link collides with `dupFeed`'s sole item. -/
def dupRow : NewsRow := ⟨"old title", "old content", ⟨2006, 1, 1, 0, 0, 0, 0⟩, "https://example.com/dup"⟩

/-- A feed whose sole item's link already exists in the store as `dupRow`. -/
def dupFeed : Feed :=
  ⟨"Feed", "https://example.com", "d",
    [⟨"new title", "https://example.com/dup", "new content", ⟨2006, 1, 2, 0, 0, 0, 0⟩⟩]⟩

/-- A decoded document whose sole item has an empty `<link>` but a
parsable pubDate. -/
def emptyLinkDoc : RssXML :=
  ⟨⟨"Feed", "https://example.com", "d",
    [⟨"No Link Item", "", "desc", "Mon, 02 Jan 2006 15:04:05 MST"⟩]⟩⟩

/-- The entry parsed out of `emptyLinkDoc`: its link is the empty
string. -/
def wNoLinkItem : Item := ⟨"No Link Item", "", "desc", ⟨2006, 1, 2, 15, 4, 5, 0⟩⟩

/-- The feed `Parse` produces from `emptyLinkDoc`. -/
def emptyLinkFeed : Feed := ⟨"Feed", "https://example.com", "d", [wNoLinkItem]⟩

/-! ## Store lemmas -/

instance {ε α : Type} [DecidableEq ε] [DecidableEq α] : DecidableEq (Except ε α) := fun a b =>
  match a, b with
  | .ok x, .ok y =>
    if h : x = y then isTrue (by rw [h]) else isFalse (by intro hc; cases hc; exact h rfl)
  | .error x, .error y =>
    if h : x = y then isTrue (by rw [h]) else isFalse (by intro hc; cases hc; exact h rfl)
  | .ok _, .error _ => isFalse (by intro h; cases h)
  | .error _, .ok _ => isFalse (by intro h; cases h)

lemma any_link_eq (rows : List NewsRow) (l : String) :
    (rows.any fun x => x.link == l) = true ↔ l ∈ links rows := by
  rw [List.any_eq_true]
  unfold links
  constructor
  · rintro ⟨x, hx, he⟩
    exact List.mem_map.mpr ⟨x, hx, by simpa using he⟩
  · intro h
    obtain ⟨x, hx, he⟩ := List.mem_map.mp h
    exact ⟨x, hx, by simpa using he⟩

lemma insertRow_of_mem (rows : List NewsRow) (r : NewsRow)
    (h : r.link ∈ links rows) : insertRow rows r = rows := by
  rw [insertRow, if_pos ((any_link_eq rows r.link).mpr h)]

lemma links_insertRow_mono (rows : List NewsRow) (r : NewsRow) (l : String)
    (h : l ∈ links rows) : l ∈ links (insertRow rows r) := by
  unfold insertRow
  split
  · exact h
  · simpa [links] using Or.inl ((List.mem_map).mp h)

lemma mem_links_insertRow_self (rows : List NewsRow) (r : NewsRow) :
    r.link ∈ links (insertRow rows r) := by
  unfold insertRow
  split
  · exact (any_link_eq rows r.link).mp (by assumption)
  · simp [links]

lemma saveBatch_nil (rows : List NewsRow) : saveBatch rows [] = rows := rfl

lemma saveBatch_cons (rows : List NewsRow) (it : Item) (its : List Item) :
    saveBatch rows (it :: its) = saveBatch (insertRow rows (rowOf it)) its := rfl

lemma links_saveBatch_mono (items : List Item) (rows : List NewsRow) (l : String)
    (h : l ∈ links rows) : l ∈ links (saveBatch rows items) := by
  induction items generalizing rows with
  | nil => exact h
  | cons it its ih =>
    rw [saveBatch_cons]
    exact ih _ (links_insertRow_mono _ _ _ h)

lemma mem_links_saveBatch (items : List Item) (rows : List NewsRow) (it : Item)
    (h : it ∈ items) : (rowOf it).link ∈ links (saveBatch rows items) := by
  induction items generalizing rows with
  | nil => cases h
  | cons a its ih =>
    rw [saveBatch_cons]
    rcases List.mem_cons.mp h with rfl | hmem
    · exact links_saveBatch_mono _ _ _ (mem_links_insertRow_self _ _)
    · exact ih _ hmem

lemma saveBatch_of_all_mem (items : List Item) (rows : List NewsRow)
    (h : ∀ it ∈ items, (rowOf it).link ∈ links rows) : saveBatch rows items = rows := by
  induction items with
  | nil => rfl
  | cons a its ih =>
    rw [saveBatch_cons, insertRow_of_mem _ _ (h a (List.mem_cons_self a its))]
    exact ih fun it hit => h it (List.mem_cons_of_mem a hit)

/-- On the success path `SaveNews` applies the batch and returns the
attempted count (also for the empty batch, where both sides collapse). -/
lemma SaveNews_ok (s : List NewsRow) (f : Feed) :
    PostgresNewsDB.SaveNews none s f = Except.ok (saveBatch s f.items, f.items.length) := by
  unfold PostgresNewsDB.SaveNews
  by_cases h : f.items.length = 0
  · rw [List.length_eq_zero] at h
    simp [h, saveBatch_nil]
  · simp [h]

/-- C1: saving is idempotent on link identity — if one run of `SaveNews`
takes the store from `s` to `s1`, a second run on the same batch leaves
`s1` unchanged (and returns the same count), because every entry of the
batch now has its link in the store and is silently skipped. -/
theorem SaveNews_idempotent (s s1 : List NewsRow) (n : Nat) (f : Feed)
    (h : PostgresNewsDB.SaveNews none s f = Except.ok (s1, n)) :
    PostgresNewsDB.SaveNews none s1 f = Except.ok (s1, n)
    ∧ ∀ it ∈ f.items, (rowOf it).link ∈ links s1 := by
  rw [SaveNews_ok] at h
  obtain ⟨h1, h2⟩ : (saveBatch s f.items = s1) ∧ (f.items.length = n) := by
    have := Except.ok.inj h
    exact ⟨congrArg Prod.fst this, congrArg Prod.snd this⟩
  subst h1 h2
  have hall : ∀ it ∈ f.items, (rowOf it).link ∈ links (saveBatch s f.items) :=
    fun it hit => mem_links_saveBatch _ _ _ hit
  refine ⟨?_, hall⟩
  rw [SaveNews_ok, saveBatch_of_all_mem _ _ hall]

/-- C1 witness: a concrete one-item batch saved into the empty store,
then saved again. -/
theorem SaveNews_idempotent_witness :
    (PostgresNewsDB.SaveNews none [] wFeed = Except.ok ([rowOf wItem], 1))
    ∧ (PostgresNewsDB.SaveNews none [rowOf wItem] wFeed = Except.ok ([rowOf wItem], 1)
        ∧ ∀ it ∈ wFeed.items, (rowOf it).link ∈ links [rowOf wItem]) :=
  ⟨by decide, SaveNews_idempotent [] [rowOf wItem] 1 wFeed (by decide)⟩

/-- C6 counterexample: a batch whose sole entry's link already exists in
the store returns count 1 (the attempted batch size) although zero rows
were newly inserted — the store is unchanged. -/
theorem SaveNews_count_cex :
    PostgresNewsDB.SaveNews none [dupRow] dupFeed = Except.ok ([dupRow], 1) := by decide

/-- C6 as amended: on success `SaveNews` returns the attempted batch
size `len(feed.Items)` — duplicates skipped by `ON CONFLICT DO NOTHING`
are still counted — and an empty batch is a no-op returning zero with no
error, before any database interaction. -/
theorem SaveNews_returns_attempted (dbErr : Option String) (s : List NewsRow)
    (f : Feed) (t l d : String) :
    PostgresNewsDB.SaveNews none s f = Except.ok (saveBatch s f.items, f.items.length)
    ∧ PostgresNewsDB.SaveNews dbErr s ⟨t, l, d, []⟩ = Except.ok (s, 0) :=
  ⟨SaveNews_ok s f, rfl⟩

/-! ## Parser counting lemmas -/

lemma length_filterMap_eq_countP {α β : Type} (f : α → Option β) (l : List α) :
    (l.filterMap f).length = l.countP fun a => (f a).isSome := by
  induction l with
  | nil => rfl
  | cons a l ih =>
    cases h : f a <;> simp [List.filterMap_cons, h, List.countP_cons, ih]

lemma countP_some_add_none (l : List ItemXML) :
    l.countP (fun it => (parsePubDate it.pubDate).isSome)
      + l.countP (fun it => (parsePubDate it.pubDate).isNone) = l.length := by
  induction l with
  | nil => rfl
  | cons a l ih =>
    cases h : parsePubDate a.pubDate <;> simp [List.countP_cons, h] <;> omega

/-- C3: with a live context, a decodable document with K items whose
pubDate parses and M items whose pubDate parses in no known format
yields exactly the K dated entries (each date miss is dropped
non-fatally), and only an undecodable document yields the wrapped decode
error. -/
theorem Parse_keeps_exactly_dated_items (rss : RssXML) :
    XMLParser.Parse false (Except.ok rss) = Except.ok (parseFeed rss)
    ∧ (parseFeed rss).items.length
        = rss.channel.items.countP (fun it => (parsePubDate it.pubDate).isSome)
    ∧ rss.channel.items.countP (fun it => (parsePubDate it.pubDate).isSome)
        + rss.channel.items.countP (fun it => (parsePubDate it.pubDate).isNone)
        = rss.channel.items.length
    ∧ ∀ e, XMLParser.Parse false (Except.error e) = Except.error (ParseError.decodeFailed e) := by
  refine ⟨rfl, ?_, ?_, fun e => rfl⟩
  · simp only [parseFeed]
    rw [length_filterMap_eq_countP]
    refine List.countP_congr fun it _ => ?_
    cases h : parsePubDate it.pubDate <;> simp [itemOfDTO, h]
  · exact countP_some_add_none rss.channel.items

/-! ## Date-format priority lemmas -/

lemma parsePubDateLoop_eq_none_iff (fs : List String) (s : String) :
    parsePubDateLoop fs s = none ↔ ∀ f ∈ fs, goTimeParse f s = none := by
  induction fs with
  | nil => simp [parsePubDateLoop]
  | cons a rest ih =>
    cases h : goTimeParse a s with
    | some t => simp [parsePubDateLoop, h]
    | none => simp [parsePubDateLoop, h, ih]

lemma parsePubDateLoop_eq_some_iff (fs : List String) (s : String) (t : GoTime) :
    parsePubDateLoop fs s = some t ↔
      ∃ pre f post, fs = pre ++ f :: post ∧ goTimeParse f s = some t ∧
        ∀ g ∈ pre, goTimeParse g s = none := by
  induction fs with
  | nil =>
    simp only [parsePubDateLoop]
    constructor
    · intro he
      exact Option.noConfusion he
    · rintro ⟨pre, f, post, heq, -, -⟩
      cases pre <;> simp at heq
  | cons a rest ih =>
    cases h : goTimeParse a s with
    | some u =>
      simp only [parsePubDateLoop, h]
      constructor
      · intro he
        exact ⟨[], a, rest, rfl, h.trans he, by simp⟩
      · rintro ⟨pre, f, post, heq, hf, hpre⟩
        cases pre with
        | nil =>
          injection heq with h1 h2
          subst h1; subst h2
          rw [h] at hf
          exact hf
        | cons p ps =>
          injection heq with h1 h2
          subst h1
          have := hpre a (List.mem_cons_self a ps)
          rw [h] at this
          exact Option.noConfusion this
    | none =>
      simp only [parsePubDateLoop, h]
      rw [ih]
      constructor
      · rintro ⟨pre, f, post, rfl, hf, hpre⟩
        refine ⟨a :: pre, f, post, rfl, hf, ?_⟩
        intro g hg
        rcases List.mem_cons.mp hg with rfl | hg2
        · exact h
        · exact hpre g hg2
      · rintro ⟨pre, f, post, heq, hf, hpre⟩
        cases pre with
        | nil =>
          injection heq with h1 h2
          subst h1
          rw [h] at hf
          exact Option.noConfusion hf
        | cons p ps =>
          injection heq with h1 h2
          subst h1
          exact ⟨ps, f, post, h2, hf, fun g hg => hpre g (List.mem_cons_of_mem _ hg)⟩

/-- C4: `parsePubDate` tries the fixed format list in source order and
returns the first successful `time.Parse`; it errors exactly when no
format matches. The spec's example strings parse to the expected
instants (to the second: both carry a zero zone offset, so the civil
fields are the UTC fields), while "not-a-date" fails every format. -/
theorem parsePubDate_spec (s : String) (t : GoTime) :
    (parsePubDate s = some t ↔
      ∃ pre f post, pubDateFormats = pre ++ f :: post ∧
        goTimeParse f (trimSpace s) = some t ∧
        ∀ g ∈ pre, goTimeParse g (trimSpace s) = none)
    ∧ (parsePubDate s = none ↔ ∀ f ∈ pubDateFormats, goTimeParse f (trimSpace s) = none)
    ∧ parsePubDate "Mon, 02 Jan 2006 15:04:05 MST" = some ⟨2006, 1, 2, 15, 4, 5, 0⟩
    ∧ parsePubDate "Tue, 03 Jan 2006 12:00:00 GMT" = some ⟨2006, 1, 3, 12, 0, 0, 0⟩
    ∧ toUnix ⟨2006, 1, 2, 15, 4, 5, 0⟩ = 1136214245
    ∧ toUnix ⟨2006, 1, 3, 12, 0, 0, 0⟩ = 1136289600
    ∧ parsePubDate "not-a-date" = none := by
  exact ⟨parsePubDateLoop_eq_some_iff pubDateFormats (trimSpace s) t,
    parsePubDateLoop_eq_none_iff pubDateFormats (trimSpace s),
    by decide, by decide, by decide, by decide, by decide⟩

/-! ## Pipeline short-circuiting -/

/-- C5: a failing stage of `ProcessFeed` short-circuits the remaining
stages — a fetch error leaves parse and save uninvoked, a parse error
leaves save uninvoked — and the returned error carries the failing
stage, the feed's display name and the original cause; the success path
runs all three stages in order. -/
theorem ProcessFeed_short_circuit (feedNames : List (String × String)) (url : String)
    (fetchRes : Except String String) (parseRes : String → Except String Feed)
    (saveRes : Feed → Except String Nat) :
    (∀ e, fetchRes = Except.error e →
      FeedProcessingUseCase.ProcessFeed feedNames url fetchRes parseRes saveRes
        = (Except.error ⟨Stage.fetch, extractFeedName feedNames url, e⟩, [Stage.fetch]))
    ∧ (∀ b e, fetchRes = Except.ok b → parseRes b = Except.error e →
      FeedProcessingUseCase.ProcessFeed feedNames url fetchRes parseRes saveRes
        = (Except.error ⟨Stage.parse, extractFeedName feedNames url, e⟩,
            [Stage.fetch, Stage.parse]))
    ∧ (∀ b fd e, fetchRes = Except.ok b → parseRes b = Except.ok fd →
        saveRes fd = Except.error e →
      FeedProcessingUseCase.ProcessFeed feedNames url fetchRes parseRes saveRes
        = (Except.error ⟨Stage.save, extractFeedName feedNames url, e⟩,
            [Stage.fetch, Stage.parse, Stage.save]))
    ∧ (∀ b fd k, fetchRes = Except.ok b → parseRes b = Except.ok fd →
        saveRes fd = Except.ok k →
      FeedProcessingUseCase.ProcessFeed feedNames url fetchRes parseRes saveRes
        = (Except.ok (), [Stage.fetch, Stage.parse, Stage.save])) := by
  refine ⟨?_, ?_, ?_, ?_⟩ <;> intros <;>
    simp_all [FeedProcessingUseCase.ProcessFeed]

/-! ## Store read lemmas -/

lemma GetNews_eq (dflt : Int) (rows : List NewsRow) (n : Int) :
    PostgresNewsDB.GetNews dflt rows n
      = (List.insertionSort newsOrd rows).take (if n ≤ 0 then dflt else n).toNat := rfl

/-- C7: a non-positive requested limit is replaced by the configured
default, a positive one is used unchanged; the result is ordered most
recently published first, holds at most `limit` entries, and with a
positive configured default a non-empty store never yields an empty
answer; the use case delegates unchanged. -/
theorem GetNews_substitutes_default (dflt n : Int) (rows : List NewsRow) :
    (n ≤ 0 → PostgresNewsDB.GetNews dflt rows n
        = (List.insertionSort newsOrd rows).take dflt.toNat)
    ∧ (0 < n → PostgresNewsDB.GetNews dflt rows n
        = (List.insertionSort newsOrd rows).take n.toNat)
    ∧ List.Sorted newsOrd (PostgresNewsDB.GetNews dflt rows n)
    ∧ (PostgresNewsDB.GetNews dflt rows n).length ≤ (if n ≤ 0 then dflt else n).toNat
    ∧ (0 < dflt → rows ≠ [] → PostgresNewsDB.GetNews dflt rows n ≠ [])
    ∧ NewsGetterUseCase.GetNews dflt rows n = PostgresNewsDB.GetNews dflt rows n := by
  refine ⟨?_, ?_, ?_, ?_, ?_, rfl⟩
  · intro h
    rw [GetNews_eq, if_pos h]
  · intro h
    rw [GetNews_eq, if_neg (not_le.mpr h)]
  · rw [GetNews_eq]
    exact List.Pairwise.sublist (List.take_sublist _ _) (List.sorted_insertionSort newsOrd rows)
  · rw [GetNews_eq, List.length_take]
    exact min_le_left _ _
  · intro hd hrows hcon
    have hlen : 0 < (List.insertionSort newsOrd rows).length := by
      rw [(List.perm_insertionSort newsOrd rows).length_eq]
      exact List.length_pos.mpr hrows
    rw [GetNews_eq] at hcon
    have hzero := congrArg List.length hcon
    rw [List.length_take, List.length_nil] at hzero
    split at hzero <;> omega

/-! ## Worker cycle lemmas -/

lemma countP_bool_split (ok : String → Bool) (urls : List String) :
    urls.countP ok + urls.countP (fun u => !ok u) = urls.length := by
  induction urls with
  | nil => rfl
  | cons u us ih => cases h : ok u <;> simp [List.countP_cons, h] <;> omega

lemma runUnit_live_true (ok : String → Bool) (u : String) (a b : Nat)
    (l : List String) (h : ok u = true) :
    Worker.runUnit false true ok u (a, b, l) = (a + 1, b, l ++ [u]) := by
  simp [Worker.runUnit, h]

lemma runUnit_live_false (ok : String → Bool) (u : String) (a b : Nat)
    (l : List String) (h : ok u = false) :
    Worker.runUnit false true ok u (a, b, l) = (a, b + 1, l ++ [u]) := by
  simp [Worker.runUnit, h]

lemma processAllFeeds_go (ok : String → Bool) (urls : List String)
    (a b : Nat) (l : List String) :
    urls.foldl (fun acc u => Worker.runUnit false true ok u acc) (a, b, l)
      = (a + urls.countP ok, b + urls.countP (fun u => !ok u), l ++ urls) := by
  induction urls generalizing a b l with
  | nil => simp
  | cons u us ih =>
    cases h : ok u
    · rw [List.foldl_cons, runUnit_live_false ok u a b l h, ih]
      refine Prod.ext ?_ (Prod.ext ?_ ?_) <;>
        simp [List.countP_cons, h] <;> omega
    · rw [List.foldl_cons, runUnit_live_true ok u a b l h, ih]
      refine Prod.ext ?_ (Prod.ext ?_ ?_) <;>
        simp [List.countP_cons, h] <;> omega

/-- C8: with a live context and a present processor, a cycle invokes
`ProcessFeed` on every configured address — one failing unit never
prevents a sibling from running — and when exactly one address fails the
cycle counters report exactly 1 failure and F - 1 successes. -/
theorem processAllFeeds_isolates_failure (ok : String → Bool) (urls : List String) :
    Worker.processAllFeeds false true ok urls
      = (urls.countP ok, urls.countP (fun u => !ok u), urls)
    ∧ (urls.countP (fun u => !ok u) = 1 →
      Worker.processAllFeeds false true ok urls = (urls.length - 1, 1, urls)) := by
  have hmain : Worker.processAllFeeds false true ok urls
      = (urls.countP ok, urls.countP (fun u => !ok u), urls) := by
    unfold Worker.processAllFeeds
    rw [processAllFeeds_go]
    simp
  refine ⟨hmain, fun h1 => ?_⟩
  rw [hmain, h1]
  have hsum := countP_bool_split ok urls
  rw [h1] at hsum
  have : urls.countP ok = urls.length - 1 := by omega
  rw [this]

lemma processAllFeeds_cancelled_go (procPresent : Bool) (ok : String → Bool)
    (urls : List String) (acc : Nat × Nat × List String) :
    urls.foldl (fun acc u => Worker.runUnit true procPresent ok u acc) acc = acc := by
  induction urls generalizing acc with
  | nil => rfl
  | cons u us ih =>
    rw [List.foldl_cons, show Worker.runUnit true procPresent ok u acc = acc from by
      simp [Worker.runUnit]]
    exact ih acc

/-- C9: a unit whose context is already cancelled when it starts returns
without invoking `ProcessFeed`; a cycle cancelled before any unit starts
invokes nothing, counts nothing and performs zero store writes; the
parser's own entry guard likewise returns the context's error without
touching the document. -/
theorem cancelled_cycle_no_work (procPresent : Bool) (ok : String → Bool)
    (save : List NewsRow → String → List NewsRow) (urls : List String)
    (s0 : List NewsRow) (u : String) (acc : Nat × Nat × List String) :
    Worker.runUnit true procPresent ok u acc = acc
    ∧ Worker.processAllFeeds true procPresent ok urls = (0, 0, [])
    ∧ Worker.cycleStore true procPresent ok save urls s0 = s0
    ∧ ∀ dec : Except String RssXML,
        XMLParser.Parse true dec = Except.error ParseError.ctxCanceled := by
  have hp : Worker.processAllFeeds true procPresent ok urls = (0, 0, []) :=
    processAllFeeds_cancelled_go procPresent ok urls (0, 0, [])
  refine ⟨by simp [Worker.runUnit], hp, ?_, fun dec => rfl⟩
  simp [Worker.cycleStore, hp]

/-! ## HTTP read boundary -/

/-- C10 counterexample: the query string `?limit=` carries the limit key
with an empty value — present and non-numeric (`Atoi("")` fails) — yet
the handler answers 200 and invokes the getter with the default 10,
because `Query().Get` returns `""` for both an absent key and an empty
value. -/
theorem Handler_getNews_limit_cex :
    Handler.getNews "GET" [("limit", "")] (fun _ => Except.ok []) = (200, some 10)
    ∧ goAtoi "" = none
    ∧ queryGet [("limit", "")] "limit" = "" := by decide

/-- C10 as amended: a limit value that is non-empty and non-numeric, or
parses to a non-positive number, is rejected with 400 without invoking
the getter; the hard-coded default 10 is used exactly when the parameter
is absent or its value is the empty string; a positive numeric value is
passed through; non-GET methods get 405. -/
theorem Handler_getNews_limit_amended (q : List (String × String))
    (g : Int → Except String (List Item)) :
    (∀ v, queryGet q "limit" = v → v ≠ "" → goAtoi v = none →
      Handler.getNews "GET" q g = (400, none))
    ∧ (∀ v l, queryGet q "limit" = v → v ≠ "" → goAtoi v = some l → l ≤ 0 →
      Handler.getNews "GET" q g = (400, none))
    ∧ (queryGet q "limit" = "" → (Handler.getNews "GET" q g).2 = some 10)
    ∧ (∀ v l, queryGet q "limit" = v → v ≠ "" → goAtoi v = some l → 0 < l →
      (Handler.getNews "GET" q g).2 = some l)
    ∧ (∀ m, m ≠ "GET" → Handler.getNews m q g = (405, none)) := by
  refine ⟨?_, ?_, ?_, ?_, ?_⟩
  · intro v hv hne hnum
    simp [Handler.getNews, hv, hne, hnum]
  · intro v l hv hne hnum hle
    simp [Handler.getNews, hv, hne, hnum, hle]
  · intro hv
    cases hg : g 10 <;> simp [Handler.getNews, hv, hg]
  · intro v l hv hne hnum hlt
    cases hg : g l <;>
      simp [Handler.getNews, hv, hne, hnum, not_le.mpr hlt, hg]
  · intro m hm
    simp [Handler.getNews, hm]

/-! ## Parser link passthrough -/

/-- C2 counterexample: an item with an empty `<link>` but a parsable
pubDate is kept by `Parse` and inserted by `SaveNews` — an entry whose
link is the empty string reaches the store. -/
theorem store_link_nonempty_cex :
    XMLParser.Parse false (Except.ok emptyLinkDoc) = Except.ok emptyLinkFeed
    ∧ wNoLinkItem.link = ""
    ∧ PostgresNewsDB.SaveNews none [] emptyLinkFeed
        = Except.ok ([rowOf wNoLinkItem], 1)
    ∧ links [rowOf wNoLinkItem] = [""] := by decide

/-- C2 as amended: the parser drops exactly the items whose pubDate
parses in no known format; every entry it emits copies title, link and
description verbatim from its source item, so an entry's link is empty
exactly when the upstream item's link is empty — non-emptiness is not
enforced anywhere on the way to the store. -/
theorem Parse_link_copied_verbatim (rss : RssXML) (fd : Feed) (e : Item)
    (hp : XMLParser.Parse false (Except.ok rss) = Except.ok fd)
    (he : e ∈ fd.items) :
    ∃ src, src ∈ rss.channel.items ∧ e.title = src.title ∧ e.link = src.link
      ∧ e.description = src.description
      ∧ parsePubDate src.pubDate = some e.pubDate
      ∧ (e.link = "" ↔ src.link = "") := by
  have hp2 : Except.ok (parseFeed rss) = Except.ok fd := hp
  have hfd : fd = parseFeed rss := (Except.ok.inj hp2).symm
  subst hfd
  have he2 : e ∈ rss.channel.items.filterMap itemOfDTO := he
  obtain ⟨src, hsrc, hmap⟩ := List.mem_filterMap.mp he2
  rw [itemOfDTO] at hmap
  obtain ⟨d, hd, heq⟩ := Option.map_eq_some'.mp hmap
  subst heq
  exact ⟨src, hsrc, rfl, rfl, rfl, hd, Iff.rfl⟩

/-- C2 amended witness: the empty-link entry of `emptyLinkDoc`. -/
theorem Parse_link_copied_verbatim_witness :
    (XMLParser.Parse false (Except.ok emptyLinkDoc) = Except.ok emptyLinkFeed
      ∧ wNoLinkItem ∈ emptyLinkFeed.items)
    ∧ ∃ src, src ∈ emptyLinkDoc.channel.items
        ∧ wNoLinkItem.title = src.title
        ∧ wNoLinkItem.link = src.link
        ∧ wNoLinkItem.description = src.description
        ∧ parsePubDate src.pubDate = some wNoLinkItem.pubDate
        ∧ (wNoLinkItem.link = "" ↔ src.link = "") :=
  ⟨⟨by decide, by decide⟩,
    Parse_link_copied_verbatim emptyLinkDoc emptyLinkFeed wNoLinkItem
      (by decide) (by decide)⟩

end News
